import Mathlib

/-!
Verification of the coco-ssd detection post-processing pipeline
(src/coco-ssd/src/index.ts) against its natural-language specification.

Buffers are embedded as total functions `ℕ → ℚ` (the JavaScript code reads
`Float32Array`s at computed indices); class indices are `ℤ` because the
extractors use `-1` as a sentinel; a class-table lookup that lands outside the
table returns `none`, modelling the TypeError thrown by reading `.displayName`
of `undefined`, which aborts the whole call (hence the assembler returns
`Option`).
-/

namespace CocoSsd

/-- JavaScript `Number.MIN_VALUE`: the smallest positive representable double,
exactly `2 ^ (-1074)`.  This is the initial value of the running maximum in
both score extractors (src/coco-ssd/src/index.ts lines 362 and 384). -/
def minValue : ℚ := 1 / ((2 ^ 1074 : ℕ) : ℚ)

/-- The class-score index expression of `calculateMaxScoresYolov5`
(src/coco-ssd/src/index.ts line 387): `i * numClasses + (i + 1) * 5 + j`. -/
def packedScoreIdx (numClasses i j : ℕ) : ℕ := i * numClasses + (i + 1) * 5 + j

/-- The packed-row stride as the spec documents it: each row has width
`numClasses + 5`, and class scores start 5 fields in: `i*(numClasses+5)+5+j`. -/
def packedRowIdx (numClasses i j : ℕ) : ℕ := i * (numClasses + 5) + 5 + j

/-- The inner `j` loop shared verbatim by `calculateMaxScores` (lines 364-369)
and `calculateMaxScoresYolov5` (lines 386-391): starting from
`(Number.MIN_VALUE, -1)`, replace the running maximum whenever
`scores[idx j] > max` (strict), recording `j` as the class index.  The two
callers differ only in the index expression `idx`. -/
def scanRow (s : ℕ → ℚ) (idx : ℕ → ℕ) (numClasses : ℕ) : ℚ × ℤ :=
  (List.range numClasses).foldl
    (fun acc j => if s (idx j) > acc.1 then (s (idx j), (j : ℤ)) else acc)
    (minValue, -1)

/-- `calculateMaxScores` (src/coco-ssd/src/index.ts lines 356-374): dense
layout, anchor `i`'s scores occupy `[i*numClasses, i*numClasses+numClasses)`;
returns the per-anchor running maxima and their class indices. -/
def calculateMaxScores (scores : ℕ → ℚ) (numBoxes numClasses : ℕ) :
    List ℚ × List ℤ :=
  (((List.range numBoxes).map fun i =>
      scanRow scores (fun j => i * numClasses + j) numClasses).map Prod.fst,
   ((List.range numBoxes).map fun i =>
      scanRow scores (fun j => i * numClasses + j) numClasses).map Prod.snd)

/-- `calculateMaxScoresYolov5` (src/coco-ssd/src/index.ts lines 376-396):
packed layout, indexing class scores by `i*numClasses + (i+1)*5 + j`;
only the class indices are returned. -/
def calculateMaxScoresYolov5 (scores : ℕ → ℚ) (numBoxes numClasses : ℕ) :
    List ℤ :=
  ((List.range numBoxes).map fun i =>
    scanRow scores (packedScoreIdx numClasses i) numClasses).map Prod.snd

/-- Refinement reference for the packed extractor, written with the
spec-documented row stride `i*(numClasses+5)+5+j` instead of the source's
`i*numClasses+(i+1)*5+j`; compared with `calculateMaxScoresYolov5`. -/
def calculateMaxScoresPackedSpec (scores : ℕ → ℚ) (numBoxes numClasses : ℕ) :
    List ℤ :=
  ((List.range numBoxes).map fun i =>
    scanRow scores (packedRowIdx numClasses i) numClasses).map Prod.snd

/-- One output row of `getBoxesYoloV5` (src/coco-ssd/src/index.ts lines
415-430): with `x, y, width, height` read at `i*(numClasses+5) + 0..3`, the
decoded corners `(x - width/2)/scale`, `(y - height/2)/scale`,
`(x + width/2)/scale`, `(y + height/2)/scale` are stored in the order
`[y1, x1, y2, x2]`. -/
def boxRowYoloV5 (s : ℕ → ℚ) (numClasses : ℕ) (scaleBy : ℚ) (i : ℕ) :
    List ℚ :=
  [(s (i * (numClasses + 5) + 1) - s (i * (numClasses + 5) + 3) / 2) / scaleBy,
   (s (i * (numClasses + 5)) - s (i * (numClasses + 5) + 2) / 2) / scaleBy,
   (s (i * (numClasses + 5) + 1) + s (i * (numClasses + 5) + 3) / 2) / scaleBy,
   (s (i * (numClasses + 5)) + s (i * (numClasses + 5) + 2) / 2) / scaleBy]

/-- The flat output array filled row by row in increasing anchor order, as the
JavaScript loop does with `boxes[i*4 + k]` assignments. -/
def buildRows (f : ℕ → List ℚ) : ℕ → List ℚ
  | 0 => []
  | n + 1 => buildRows f n ++ f n

/-- `getBoxesYoloV5` (src/coco-ssd/src/index.ts lines 410-433). -/
def getBoxesYoloV5 (s : ℕ → ℚ) (numBoxes numClasses : ℕ) (scaleBy : ℚ) :
    List ℚ :=
  buildRows (boxRowYoloV5 s numClasses scaleBy) numBoxes

/-- The externally visible result unit (src/coco-ssd/src/index.ts lines 30-34).
`bbox` is `(x, y, width, height)`; the field `class` is called `cls` here
because `class` is a Lean keyword. -/
structure DetectedObject where
  bbox : ℚ × ℚ × ℚ × ℚ
  cls : String
  score : ℚ
deriving DecidableEq

/-- The body of one iteration of the `buildDetectedObjects` loop
(src/coco-ssd/src/index.ts lines 332-351) for kept index `k`: read the four
corners at `k*4 + 0..3`, denormalize (`minY = bbox[0]*height`,
`minX = bbox[1]*width`, `maxY = bbox[2]*height`, `maxX = bbox[3]*width`),
emit `[minX, minY, maxX-minX, maxY-minY]`, and look the label up at
`classes[k] + 1`; a lookup outside the table is the thrown TypeError. -/
def detectedObjectAt (width height : ℚ) (boxes scores : ℕ → ℚ)
    (classes : ℕ → ℤ) (table : ℤ → Option String) (k : ℕ) :
    Option DetectedObject :=
  (table (classes k + 1)).map fun name =>
    { bbox := (boxes (k * 4 + 1) * width, boxes (k * 4) * height,
               boxes (k * 4 + 3) * width - boxes (k * 4 + 1) * width,
               boxes (k * 4 + 2) * height - boxes (k * 4) * height),
      cls := name, score := scores k }

/-- The `buildDetectedObjects` loop over the kept indices: objects are pushed
in order; the first failing lookup aborts the whole call. -/
def assembleLoop (f : ℕ → Option DetectedObject) :
    List ℕ → Option (List DetectedObject)
  | [] => some []
  | k :: rest =>
    match f k with
    | none => none
    | some o => (assembleLoop f rest).map fun l => o :: l

/-- `buildDetectedObjects` (src/coco-ssd/src/index.ts lines 326-354),
parameterized by the class table instead of the module-level `CLASSES`. -/
def buildDetectedObjects (width height : ℚ) (boxes scores : ℕ → ℚ)
    (indexes : List ℕ) (classes : ℕ → ℤ) (table : ℤ → Option String) :
    Option (List DetectedObject) :=
  assembleLoop (detectedObjectAt width height boxes scores classes table)
    indexes

/-- The result-assembly call of the packed (yolov5) branch
(src/coco-ssd/src/index.ts lines 242-243): `buildDetectedObjects` is invoked
with the literal constants `640` and `480` as width and height. -/
def yolov5Assemble (boxes scores : ℕ → ℚ) (indexes : List ℕ)
    (classes : ℕ → ℤ) (table : ℤ → Option String) :
    Option (List DetectedObject) :=
  buildDetectedObjects 640 480 boxes scores indexes classes table

/-- A decoded box in `(y1, x1, y2, x2)` corner order, the format handed to
suppression. -/
structure Box where
  y1 : ℚ
  x1 : ℚ
  y2 : ℚ
  x2 : ℚ

/-- Modelled from the spec: the area of an axis-aligned corner box. -/
def boxArea (b : Box) : ℚ := (b.y2 - b.y1) * (b.x2 - b.x1)

/-- Modelled from the spec: length of the overlap of two intervals. -/
def overlapLen (a1 a2 b1 b2 : ℚ) : ℚ := max 0 (min a2 b2 - max a1 b1)

/-- Modelled from the spec: intersection-over-union on `(y1,x1,y2,x2)`
corners; boxes with zero or negative area have zero IoU with anything. -/
def iou (a b : Box) : ℚ :=
  if boxArea a ≤ 0 ∨ boxArea b ≤ 0 then 0
  else
    overlapLen a.y1 a.y2 b.y1 b.y2 * overlapLen a.x1 a.x2 b.x1 b.x2 /
      (boxArea a + boxArea b -
        overlapLen a.y1 a.y2 b.y1 b.y2 * overlapLen a.x1 a.x2 b.x1 b.x2)

/-- Descending ranking order on candidate indices: `i` precedes `j` when
`scores j ≤ scores i`. -/
def rankLE (scores : ℕ → ℚ) (i j : ℕ) : Prop := scores j ≤ scores i

instance (scores : ℕ → ℚ) : DecidableRel (rankLE scores) := fun i j =>
  inferInstanceAs (Decidable (scores j ≤ scores i))

instance (scores : ℕ → ℚ) : IsTotal ℕ (rankLE scores) :=
  ⟨fun a b => le_total (scores b) (scores a)⟩

instance (scores : ℕ → ℚ) : IsTrans ℕ (rankLE scores) :=
  ⟨fun _ _ _ hab hbc => le_trans hbc hab⟩

/-- Modelled from the spec: the greedy selection loop of non-max suppression
(src/coco-ssd/src/index.ts calls the external `tf.image.nonMaxSuppression`,
whose implementation is not in this repository).  Repeatedly take the
highest-scoring remaining candidate and drop every remaining candidate whose
IoU with it exceeds the threshold; stop when the output budget is exhausted
or no candidates remain.  `fuel` is an upper bound on the iteration count
(the candidate list shrinks every step). -/
def nmsGreedy (box : ℕ → Box) (iouThreshold : ℚ) :
    ℕ → ℕ → List ℕ → List ℕ
  | 0, _, _ => []
  | _ + 1, 0, _ => []
  | _ + 1, _ + 1, [] => []
  | fuel + 1, budget + 1, i :: rest =>
    i :: nmsGreedy box iouThreshold fuel budget
        (rest.filter fun p => decide (iou (box i) (box p) ≤ iouThreshold))

/-- Modelled from the spec, steps 1 and 2: drop every candidate scoring below
`minScore`, then sort the survivors by descending score. -/
def rankedCandidates (scores : ℕ → ℚ) (numBoxes : ℕ) (minScore : ℚ) :
    List ℕ :=
  ((List.range numBoxes).filter fun i =>
    decide (minScore ≤ scores i)).insertionSort (rankLE scores)

/-- Modelled from the spec: greedy non-max suppression — the ranked
candidates are fed to the greedy selection loop with output budget
`maxOutputCount`; the candidate list length bounds the iteration count. -/
def nonMaxSuppression (box : ℕ → Box) (scores : ℕ → ℚ)
    (numBoxes maxOutputCount : ℕ) (iouThreshold minScore : ℚ) : List ℕ :=
  nmsGreedy box iouThreshold (rankedCandidates scores numBoxes minScore).length
    maxOutputCount (rankedCandidates scores numBoxes minScore)

/-! ### Helper lemmas -/

theorem minValue_den_gt_one : (1 : ℚ) < ((2 ^ 1074 : ℕ) : ℚ) := by
  exact_mod_cast Nat.one_lt_two_pow (by norm_num)

theorem minValue_pos : 0 < minValue := by
  rw [minValue]
  exact div_pos one_pos (lt_trans one_pos minValue_den_gt_one)

theorem minValue_lt_one : minValue < 1 := by
  rw [minValue]
  exact (div_lt_one (lt_trans one_pos minValue_den_gt_one)).mpr
    minValue_den_gt_one

theorem scanRow_succ (s : ℕ → ℚ) (idx : ℕ → ℕ) (n : ℕ) :
    scanRow s idx (n + 1) =
      if s (idx n) > (scanRow s idx n).1 then (s (idx n), (n : ℤ))
      else scanRow s idx n := by
  simp [scanRow, List.range_succ, List.foldl_append]

theorem scanRow_cases (s : ℕ → ℚ) (idx : ℕ → ℕ) :
    ∀ n : ℕ,
      (scanRow s idx n = (minValue, -1) ∧ ∀ j, j < n → s (idx j) ≤ minValue) ∨
      (∃ k : ℕ, k < n ∧ scanRow s idx n = (s (idx k), (k : ℤ)) ∧
        minValue < s (idx k) ∧
        (∀ j, j < n → s (idx j) ≤ s (idx k)) ∧
        ∀ j, j < k → s (idx j) < s (idx k))
  | 0 => Or.inl ⟨rfl, fun j hj => absurd hj (Nat.not_lt_zero j)⟩
  | n + 1 => by
    rcases scanRow_cases s idx n with ⟨heq, hall⟩ |
      ⟨k, hk, heq, hgt, hmax, hfirst⟩
    · rw [scanRow_succ, heq]
      by_cases h : s (idx n) > minValue
      · right
        refine ⟨n, Nat.lt_succ_self n, by simp [h], h, ?_, ?_⟩
        · intro j hj
          rcases Nat.lt_succ_iff_lt_or_eq.mp hj with hj' | rfl
          · exact le_trans (hall j hj') (le_of_lt h)
          · exact le_refl _
        · intro j hj
          exact lt_of_le_of_lt (hall j hj) h
      · left
        refine ⟨by simp [h], ?_⟩
        intro j hj
        rcases Nat.lt_succ_iff_lt_or_eq.mp hj with hj' | rfl
        · exact hall j hj'
        · exact not_lt.mp h
    · rw [scanRow_succ, heq]
      by_cases h : s (idx n) > s (idx k)
      · right
        refine ⟨n, Nat.lt_succ_self n, by simp [h], lt_trans hgt h, ?_, ?_⟩
        · intro j hj
          rcases Nat.lt_succ_iff_lt_or_eq.mp hj with hj' | rfl
          · exact le_trans (hmax j hj') (le_of_lt h)
          · exact le_refl _
        · intro j hj
          exact lt_of_le_of_lt (hmax j hj) h
      · right
        refine ⟨k, Nat.lt_succ_of_lt hk, by simp [h], hgt, ?_, hfirst⟩
        intro j hj
        rcases Nat.lt_succ_iff_lt_or_eq.mp hj with hj' | rfl
        · exact hmax j hj'
        · exact not_lt.mp h

/-! ### Claim theorems -/

/-- C1: for every anchor index `i`, class count and class position
`j < numClasses`, the packed-mode index expression `i*numClasses + (i+1)*5 + j`
used by `calculateMaxScoresYolov5` addresses the same buffer element as the
documented packed-row stride `i*(numClasses+5) + 5 + j`; consequently the
packed-mode extractor agrees with the extractor written against the
documented row layout and reads exactly the `numClasses` class fields of
anchor `i`'s row. -/
theorem c1_packed_stride_refinement :
    (∀ numClasses i j : ℕ,
      packedScoreIdx numClasses i j = packedRowIdx numClasses i j) ∧
    ∀ (s : ℕ → ℚ) (numBoxes numClasses : ℕ),
      calculateMaxScoresYolov5 s numBoxes numClasses =
        calculateMaxScoresPackedSpec s numBoxes numClasses := by
  have hidx : ∀ numClasses i j : ℕ,
      packedScoreIdx numClasses i j = packedRowIdx numClasses i j := by
    intro c i j
    simp only [packedScoreIdx, packedRowIdx]
    ring
  refine ⟨hidx, ?_⟩
  intro s nb c
  have hfun : ∀ i : ℕ, packedScoreIdx c i = packedRowIdx c i := by
    intro i
    funext j
    exact hidx c i j
  simp only [calculateMaxScoresYolov5, calculateMaxScoresPackedSpec, hfun]

/-- C2 counterexample: on the dense score row `[-1, -1/2]` (one anchor, two
classes) the extractor returns class index `-1`, not the position `1` of the
true maximum: the initial running maximum `Number.MIN_VALUE` is the smallest
positive double, so negative scores never replace it. -/
theorem c2_dense_negative_row_counterexample :
    (calculateMaxScores (fun n => if n = 0 then (-1 : ℚ) else -1 / 2) 1 2).2 =
      [-1] ∧ ((-1 : ℤ) ≠ 1) := by
  have h1 : ¬ ((-1 : ℚ) > minValue) := by
    simp only [gt_iff_lt, not_lt]
    exact le_trans (by norm_num) (le_of_lt minValue_pos)
  have h2 : ¬ ((-1 / 2 : ℚ) > minValue) := by
    simp only [gt_iff_lt, not_lt]
    exact le_trans (by norm_num) (le_of_lt minValue_pos)
  constructor
  · simp [calculateMaxScores, scanRow, List.range_succ, h1, h2]
  · decide

/-- C2 amended: the dense extractor's initial maximum is
`Number.MIN_VALUE = 2^(-1074)`, the smallest positive representable value
(not the most negative); whenever some score of anchor `i`'s row strictly
exceeds this sentinel, the returned class index is the position of the row's
true maximum, with ties resolved to the lowest index. -/
theorem c2_dense_argmax_amended (s : ℕ → ℚ) (numBoxes numClasses i : ℕ)
    (hi : i < numBoxes)
    (hex : ∃ j, j < numClasses ∧ minValue < s (i * numClasses + j)) :
    ∃ k : ℕ, k < numClasses ∧
      ((calculateMaxScores s numBoxes numClasses).2)[i]? = some (k : ℤ) ∧
      (∀ j, j < numClasses →
        s (i * numClasses + j) ≤ s (i * numClasses + k)) ∧
      ∀ j, j < k → s (i * numClasses + j) < s (i * numClasses + k) := by
  rcases scanRow_cases s (fun j => i * numClasses + j) numClasses with
    ⟨heq, hall⟩ | ⟨k, hk, heq, hgt, hmax, hfirst⟩
  · obtain ⟨j, hj, hlt⟩ := hex
    exact absurd (hall j hj) (not_le.mpr hlt)
  · refine ⟨k, hk, ?_, hmax, hfirst⟩
    simp only [calculateMaxScores, List.getElem?_map, List.getElem?_range hi,
      Option.map_some', heq]

/-- Witness for C2 amended at a concrete input. -/
theorem c2_dense_argmax_amended_witness :
    ∃ k : ℕ, k < 1 ∧
      ((calculateMaxScores (fun _ => 1) 1 1).2)[0]? = some (k : ℤ) ∧
      (∀ j, j < 1 →
        (fun _ => (1 : ℚ)) (0 * 1 + j) ≤ (fun _ => (1 : ℚ)) (0 * 1 + k)) ∧
      ∀ j, j < k →
        (fun _ => (1 : ℚ)) (0 * 1 + j) < (fun _ => (1 : ℚ)) (0 * 1 + k) :=
  c2_dense_argmax_amended (fun _ => 1) 1 1 0 (by decide)
    ⟨0, by decide, by simpa using minValue_lt_one⟩

/-- C10: both extractors return per-anchor arrays of length exactly
`numBoxes`, and every returned class index is either `-1` or lies in
`[0, numClasses)`. -/
theorem c10_extractor_invariants (s : ℕ → ℚ) (numBoxes numClasses : ℕ) :
    (calculateMaxScores s numBoxes numClasses).1.length = numBoxes ∧
    (calculateMaxScores s numBoxes numClasses).2.length = numBoxes ∧
    (calculateMaxScoresYolov5 s numBoxes numClasses).length = numBoxes ∧
    (∀ z ∈ (calculateMaxScores s numBoxes numClasses).2,
      z = -1 ∨ (0 ≤ z ∧ z < (numClasses : ℤ))) ∧
    ∀ z ∈ calculateMaxScoresYolov5 s numBoxes numClasses,
      z = -1 ∨ (0 ≤ z ∧ z < (numClasses : ℤ)) := by
  refine ⟨by simp [calculateMaxScores], by simp [calculateMaxScores],
    by simp [calculateMaxScoresYolov5], ?_, ?_⟩
  · intro z hz
    simp only [calculateMaxScores, List.mem_map, List.mem_range] at hz
    obtain ⟨p, ⟨i, hi, rfl⟩, rfl⟩ := hz
    rcases scanRow_cases s (fun j => i * numClasses + j) numClasses with
      ⟨heq, _⟩ | ⟨k, hk, heq, _, _, _⟩
    · rw [heq]
      exact Or.inl rfl
    · rw [heq]
      exact Or.inr ⟨Int.natCast_nonneg k, Int.ofNat_lt.mpr hk⟩
  · intro z hz
    simp only [calculateMaxScoresYolov5, List.mem_map, List.mem_range] at hz
    obtain ⟨p, ⟨i, hi, rfl⟩, rfl⟩ := hz
    rcases scanRow_cases s (packedScoreIdx numClasses i) numClasses with
      ⟨heq, _⟩ | ⟨k, hk, heq, _, _, _⟩
    · rw [heq]
      exact Or.inl rfl
    · rw [heq]
      exact Or.inr ⟨Int.natCast_nonneg k, Int.ofNat_lt.mpr hk⟩

/-- Witness for C10 at a concrete input. -/
theorem c10_extractor_invariants_witness :
    (0 : ℤ) = -1 ∨ ((0 : ℤ) ≤ 0 ∧ (0 : ℤ) < ((1 : ℕ) : ℤ)) :=
  (c10_extractor_invariants (fun _ => 1) 1 1).2.2.2.1 0
    (by simp [calculateMaxScores, scanRow, List.range_succ, minValue_lt_one])

theorem nmsGreedy_length_le (box : ℕ → Box) (iouT : ℚ) :
    ∀ (fuel budget : ℕ) (l : List ℕ),
      (nmsGreedy box iouT fuel budget l).length ≤ budget
  | 0, _, _ => by simp [nmsGreedy]
  | _ + 1, 0, _ => by simp [nmsGreedy]
  | _ + 1, _ + 1, [] => by simp [nmsGreedy]
  | fuel + 1, budget + 1, i :: rest => by
    simp only [nmsGreedy, List.length_cons]
    exact Nat.succ_le_succ (nmsGreedy_length_le box iouT fuel budget _)

theorem nmsGreedy_sublist (box : ℕ → Box) (iouT : ℚ) :
    ∀ (fuel budget : ℕ) (l : List ℕ),
      List.Sublist (nmsGreedy box iouT fuel budget l) l
  | 0, _, l => by simp [nmsGreedy]
  | _ + 1, 0, l => by simp [nmsGreedy]
  | _ + 1, _ + 1, [] => by simp [nmsGreedy]
  | fuel + 1, budget + 1, i :: rest => by
    simp only [nmsGreedy]
    exact List.Sublist.cons₂ i
      ((nmsGreedy_sublist box iouT fuel budget _).trans
        (List.filter_sublist _))

/-- C5: the suppression stage keeps at most `maxNumBoxes` indices, every kept
index has ranking score at least `minScore`, and the kept sequence is ordered
by descending score. -/
theorem c5_suppressor_contract (box : ℕ → Box) (scores : ℕ → ℚ)
    (numBoxes maxNumBoxes : ℕ) (iouThreshold minScore : ℚ) :
    (nonMaxSuppression box scores numBoxes maxNumBoxes iouThreshold
        minScore).length ≤ maxNumBoxes ∧
    (∀ i ∈ nonMaxSuppression box scores numBoxes maxNumBoxes iouThreshold
        minScore, minScore ≤ scores i) ∧
    (nonMaxSuppression box scores numBoxes maxNumBoxes iouThreshold
        minScore).Sorted (rankLE scores) := by
  have hsub : List.Sublist (nonMaxSuppression box scores numBoxes maxNumBoxes
      iouThreshold minScore) (rankedCandidates scores numBoxes minScore) :=
    nmsGreedy_sublist box iouThreshold _ maxNumBoxes _
  refine ⟨nmsGreedy_length_le box iouThreshold _ maxNumBoxes _, ?_, ?_⟩
  · intro i hi
    have hmem : i ∈ rankedCandidates scores numBoxes minScore :=
      hsub.subset hi
    have hmem' : i ∈ (List.range numBoxes).filter fun i =>
        decide (minScore ≤ scores i) := by
      simpa [rankedCandidates] using hmem
    exact of_decide_eq_true (List.mem_filter.mp hmem').2
  · exact List.Pairwise.sublist hsub
      (List.sorted_insertionSort (rankLE scores) _)

/-- Witness for C5 at a concrete input. -/
theorem c5_suppressor_contract_witness :
    (1 : ℚ) / 2 ≤ (fun _ => (1 : ℚ)) 0 :=
  (c5_suppressor_contract (fun _ => ⟨0, 0, 1, 1⟩) (fun _ => 1) 1 1
    (1 / 2) (1 / 2)).2.1 0
    (by
      norm_num [nonMaxSuppression, rankedCandidates, nmsGreedy, rankLE,
        List.range_succ, List.insertionSort])

theorem assembleLoop_eq_map (f : ℕ → Option DetectedObject)
    (g : ℕ → DetectedObject) :
    ∀ l : List ℕ, (∀ k ∈ l, f k = some (g k)) →
      assembleLoop f l = some (l.map g)
  | [], _ => rfl
  | k :: rest, h => by
    have hk := h k (List.mem_cons_self k rest)
    have ih := assembleLoop_eq_map f g rest fun a ha =>
      h a (List.mem_cons_of_mem k ha)
    simp [assembleLoop, hk, ih]

theorem assembleLoop_eq_none (f : ℕ → Option DetectedObject) (k : ℕ) :
    ∀ l : List ℕ, k ∈ l → f k = none → assembleLoop f l = none
  | [], hmem, _ => absurd hmem (List.not_mem_nil k)
  | a :: rest, hmem, hnone => by
    rcases List.mem_cons.mp hmem with rfl | hmem'
    · simp [assembleLoop, hnone]
    · cases hfa : f a with
      | none => simp [assembleLoop, hfa]
      | some o =>
        simp [assembleLoop, hfa,
          assembleLoop_eq_none f k rest hmem' hnone]

/-- C6: for each kept index `k` the assembler emits exactly
`bbox = (minX, minY, maxX-minX, maxY-minY)` with `minY = y1*height`,
`minX = x1*width`, `maxY = y2*height`, `maxX = x2*width` read from the
decoded box at index `k`, with `score = rankingScore[k]`, in the same order
as the kept indices. -/
theorem c6_assembler_formula (width height : ℚ) (boxes scores : ℕ → ℚ)
    (indexes : List ℕ) (classes : ℕ → ℤ) (table : ℤ → Option String)
    (nm : ℕ → String)
    (hnm : ∀ k ∈ indexes, table (classes k + 1) = some (nm k)) :
    buildDetectedObjects width height boxes scores indexes classes table =
      some (indexes.map fun k =>
        { bbox := (boxes (k * 4 + 1) * width, boxes (k * 4) * height,
                   boxes (k * 4 + 3) * width - boxes (k * 4 + 1) * width,
                   boxes (k * 4 + 2) * height - boxes (k * 4) * height),
          cls := nm k, score := scores k }) := by
  rw [buildDetectedObjects]
  apply assembleLoop_eq_map
  intro k hk
  rw [detectedObjectAt, hnm k hk]
  rfl

/-- Witness for C6 at a concrete input. -/
theorem c6_assembler_formula_witness :
    buildDetectedObjects 2 3 (fun _ => 1) (fun _ => 1 / 2) [0]
      (fun _ => 0) (fun z => if z = 1 then some "person" else none) =
      some (([0] : List ℕ).map fun k =>
        { bbox := ((fun _ => (1 : ℚ)) (k * 4 + 1) * 2,
                   (fun _ => (1 : ℚ)) (k * 4) * 3,
                   (fun _ => (1 : ℚ)) (k * 4 + 3) * 2 -
                     (fun _ => (1 : ℚ)) (k * 4 + 1) * 2,
                   (fun _ => (1 : ℚ)) (k * 4 + 2) * 3 -
                     (fun _ => (1 : ℚ)) (k * 4) * 3),
          cls := (fun _ => "person") k,
          score := (fun _ => (1 : ℚ) / 2) k }) :=
  c6_assembler_formula 2 3 (fun _ => 1) (fun _ => 1 / 2) [0]
    (fun _ => 0) (fun z => if z = 1 then some "person" else none)
    (fun _ => "person") (by intro k hk; simp)

/-- C3 counterexample: in the packed (yolov5) branch the assembler looks the
label up at `classIndex + 1`, not `classIndex + 0`: with class index `0` and
a table mapping `0` to `"background"` and `1` to `"person"`, the emitted
label is `"person"`, not the `"background"` that offset `0` would select. -/
theorem c3_packed_offset_counterexample :
    yolov5Assemble (fun _ => 0) (fun _ => 1) [0] (fun _ => 0)
      (fun z => if z = 0 then some "background"
        else if z = 1 then some "person" else none) =
      some [{ bbox := (0, 0, 0, 0), cls := "person", score := 1 }] ∧
    ((fun z => if z = 0 then some "background"
      else if z = 1 then some "person" else none) : ℤ → Option String)
      (0 + 0) = some "background" ∧
    "person" ≠ "background" := by
  refine ⟨?_, by norm_num, by decide⟩
  norm_num [yolov5Assemble, buildDetectedObjects, assembleLoop,
    detectedObjectAt]

/-- C3 amended: the class-table offset is the fixed constant `1` for both
layouts: for every kept index, the dense branch and the packed (yolov5)
branch both look the label up at `classIndex + 1`. -/
theorem c3_offset_one_both_layouts (width height : ℚ)
    (boxes scores : ℕ → ℚ) (indexes : List ℕ) (classes : ℕ → ℤ)
    (table : ℤ → Option String) (nm : ℕ → String)
    (hnm : ∀ k ∈ indexes, table (classes k + 1) = some (nm k)) :
    Option.map (List.map DetectedObject.cls)
        (buildDetectedObjects width height boxes scores indexes classes
          table) = some (indexes.map nm) ∧
    Option.map (List.map DetectedObject.cls)
        (yolov5Assemble boxes scores indexes classes table) =
      some (indexes.map nm) := by
  have hgen : ∀ w h : ℚ,
      Option.map (List.map DetectedObject.cls)
        (buildDetectedObjects w h boxes scores indexes classes table) =
        some (indexes.map nm) := by
    intro w h
    rw [buildDetectedObjects,
      assembleLoop_eq_map (detectedObjectAt w h boxes scores classes table)
        (fun k =>
          { bbox := (boxes (k * 4 + 1) * w, boxes (k * 4) * h,
                     boxes (k * 4 + 3) * w - boxes (k * 4 + 1) * w,
                     boxes (k * 4 + 2) * h - boxes (k * 4) * h),
            cls := nm k, score := scores k })
        indexes (fun k hk => by rw [detectedObjectAt, hnm k hk]; rfl)]
    simp only [Option.map_some', List.map_map]
    rfl
  exact ⟨hgen width height, hgen 640 480⟩

/-- Witness for C3 amended at a concrete input. -/
theorem c3_offset_one_both_layouts_witness :
    Option.map (List.map DetectedObject.cls)
        (buildDetectedObjects 1 1 (fun _ => 0) (fun _ => 0) [0]
          (fun _ => 0) (fun z => if z = 1 then some "person" else none)) =
      some (([0] : List ℕ).map fun _ => "person") ∧
    Option.map (List.map DetectedObject.cls)
        (yolov5Assemble (fun _ => 0) (fun _ => 0) [0] (fun _ => 0)
          (fun z => if z = 1 then some "person" else none)) =
      some (([0] : List ℕ).map fun _ => "person") :=
  c3_offset_one_both_layouts 1 1 (fun _ => 0) (fun _ => 0) [0]
    (fun _ => 0) (fun z => if z = 1 then some "person" else none)
    (fun _ => "person") (by intro k hk; simp)

/-- C4 counterexample: the packed (yolov5) branch denormalizes with the
hardcoded constants `640` and `480`: a decoded box with all corners `1/2`
yields `minX = 320` and `minY = 240` whatever the dimensions of the supplied
input image; had the supplied image width been `1000`, the claimed
image-relative scaling would demand `minX = 500`. -/
theorem c4_packed_dims_counterexample :
    yolov5Assemble (fun _ => 1 / 2) (fun _ => 9 / 10) [0] (fun _ => 0)
      (fun z => if z = 1 then some "person" else none) =
      some [{ bbox := (320, 240, 0, 0), cls := "person",
              score := 9 / 10 }] ∧
    (320 : ℚ) ≠ (1 / 2) * 1000 := by
  constructor
  · norm_num [yolov5Assemble, buildDetectedObjects, assembleLoop,
      detectedObjectAt]
  · norm_num

/-- C4 amended: in the packed (yolov5) layout every emitted bbox is
denormalized with the fixed constants `width = 640`, `height = 480`
(src/coco-ssd/src/index.ts line 242), regardless of the dimensions of the
input image supplied to the call. -/
theorem c4_packed_fixed_dims (boxes scores : ℕ → ℚ) (indexes : List ℕ)
    (classes : ℕ → ℤ) (table : ℤ → Option String) (nm : ℕ → String)
    (hnm : ∀ k ∈ indexes, table (classes k + 1) = some (nm k)) :
    yolov5Assemble boxes scores indexes classes table =
      some (indexes.map fun k =>
        { bbox := (boxes (k * 4 + 1) * 640, boxes (k * 4) * 480,
                   boxes (k * 4 + 3) * 640 - boxes (k * 4 + 1) * 640,
                   boxes (k * 4 + 2) * 480 - boxes (k * 4) * 480),
          cls := nm k, score := scores k }) := by
  rw [yolov5Assemble, buildDetectedObjects]
  apply assembleLoop_eq_map
  intro k hk
  rw [detectedObjectAt, hnm k hk]
  rfl

/-- Witness for C4 amended at a concrete input. -/
theorem c4_packed_fixed_dims_witness :
    yolov5Assemble (fun _ => 1) (fun _ => 1) [0] (fun _ => 0)
      (fun z => if z = 1 then some "person" else none) =
      some (([0] : List ℕ).map fun k =>
        { bbox := ((fun _ => (1 : ℚ)) (k * 4 + 1) * 640,
                   (fun _ => (1 : ℚ)) (k * 4) * 480,
                   (fun _ => (1 : ℚ)) (k * 4 + 3) * 640 -
                     (fun _ => (1 : ℚ)) (k * 4 + 1) * 640,
                   (fun _ => (1 : ℚ)) (k * 4 + 2) * 480 -
                     (fun _ => (1 : ℚ)) (k * 4) * 480),
          cls := (fun _ => "person") k,
          score := (fun _ => (1 : ℚ)) k }) :=
  c4_packed_fixed_dims (fun _ => 1) (fun _ => 1) [0] (fun _ => 0)
    (fun z => if z = 1 then some "person" else none) (fun _ => "person")
    (by intro k hk; simp)

/-- C8: an empty kept-index sequence is not an error — the assembler (and
hence the detection call, which returns its value directly) produces the
empty result list, in both the dense and the packed branch. -/
theorem c8_empty_candidates_ok (width height : ℚ) (boxes scores : ℕ → ℚ)
    (classes : ℕ → ℤ) (table : ℤ → Option String) :
    buildDetectedObjects width height boxes scores [] classes table =
      some [] ∧
    yolov5Assemble boxes scores [] classes table = some [] :=
  ⟨rfl, rfl⟩

/-- C9: if the class index plus the offset the code applies falls outside
the class table, the assembler fails loudly — the whole call aborts with an
error (`none`, the thrown TypeError) instead of clamping the index or
substituting a default label. -/
theorem c9_out_of_range_fails (width height : ℚ) (boxes scores : ℕ → ℚ)
    (indexes : List ℕ) (classes : ℕ → ℤ) (table : ℤ → Option String)
    (k : ℕ) (hk : k ∈ indexes)
    (hnone : table (classes k + 1) = none) :
    buildDetectedObjects width height boxes scores indexes classes table =
      none := by
  rw [buildDetectedObjects]
  exact assembleLoop_eq_none _ k indexes hk
    (by rw [detectedObjectAt, hnone]; rfl)

/-- Witness for C9 at a concrete input: the sentinel class index `-1` plus
offset `1` misses a table keyed from `1`, and the call errors out. -/
theorem c9_out_of_range_fails_witness :
    buildDetectedObjects 1 1 (fun _ => 0) (fun _ => 0) [0] (fun _ => -1)
      (fun z => if z = 1 then some "person" else none) = none :=
  c9_out_of_range_fails 1 1 (fun _ => 0) (fun _ => 0) [0] (fun _ => -1)
    (fun z => if z = 1 then some "person" else none) 0 (by simp)
    (by norm_num)

theorem buildRows_length (f : ℕ → List ℚ) (hf : ∀ i, (f i).length = 4) :
    ∀ n, (buildRows f n).length = 4 * n
  | 0 => rfl
  | n + 1 => by
    simp only [buildRows, List.length_append, buildRows_length f hf n, hf n]
    omega

theorem buildRows_getElem (f : ℕ → List ℚ) (hf : ∀ i, (f i).length = 4)
    (k : ℕ) (hk : k < 4) :
    ∀ n i, i < n → (buildRows f n)[i * 4 + k]? = (f i)[k]?
  | n + 1, i, hi => by
    rcases Nat.lt_succ_iff_lt_or_eq.mp hi with hi' | heq
    · have hlen : i * 4 + k < (buildRows f n).length := by
        rw [buildRows_length f hf n]
        omega
      rw [buildRows, List.getElem?_append_left hlen]
      exact buildRows_getElem f hf k hk n i hi'
    · subst heq
      have hlen : (buildRows f i).length ≤ i * 4 + k := by
        rw [buildRows_length f hf i]
        omega
      rw [buildRows, List.getElem?_append_right hlen,
        buildRows_length f hf i]
      have hidx : i * 4 + k - 4 * i = k := by omega
      rw [hidx]

/-- C7: the center-size box decoder is a left-inverse of box construction:
for a nonzero scale, the decoded corners at `anchorIndex*4` are stored in
`(y1, x1, y2, x2)` order, and re-deriving center and size from the corners
(`cx = scale*(x1+x2)/2`, `w = scale*(x2-x1)`, likewise for `cy`, `h`)
reproduces the raw `(cx, cy, w, h)` values read from the buffer. -/
theorem c7_box_decoder_left_inverse (s : ℕ → ℚ) (numBoxes numClasses : ℕ)
    (scaleBy : ℚ) (i : ℕ) (hs : scaleBy ≠ 0) (hi : i < numBoxes) :
    (getBoxesYoloV5 s numBoxes numClasses scaleBy)[i * 4]? =
      some ((s (i * (numClasses + 5) + 1) -
        s (i * (numClasses + 5) + 3) / 2) / scaleBy) ∧
    (getBoxesYoloV5 s numBoxes numClasses scaleBy)[i * 4 + 1]? =
      some ((s (i * (numClasses + 5)) -
        s (i * (numClasses + 5) + 2) / 2) / scaleBy) ∧
    (getBoxesYoloV5 s numBoxes numClasses scaleBy)[i * 4 + 2]? =
      some ((s (i * (numClasses + 5) + 1) +
        s (i * (numClasses + 5) + 3) / 2) / scaleBy) ∧
    (getBoxesYoloV5 s numBoxes numClasses scaleBy)[i * 4 + 3]? =
      some ((s (i * (numClasses + 5)) +
        s (i * (numClasses + 5) + 2) / 2) / scaleBy) ∧
    scaleBy * (((s (i * (numClasses + 5)) -
        s (i * (numClasses + 5) + 2) / 2) / scaleBy) +
      ((s (i * (numClasses + 5)) +
        s (i * (numClasses + 5) + 2) / 2) / scaleBy)) / 2 =
      s (i * (numClasses + 5)) ∧
    scaleBy * (((s (i * (numClasses + 5)) +
        s (i * (numClasses + 5) + 2) / 2) / scaleBy) -
      ((s (i * (numClasses + 5)) -
        s (i * (numClasses + 5) + 2) / 2) / scaleBy)) =
      s (i * (numClasses + 5) + 2) ∧
    scaleBy * (((s (i * (numClasses + 5) + 1) -
        s (i * (numClasses + 5) + 3) / 2) / scaleBy) +
      ((s (i * (numClasses + 5) + 1) +
        s (i * (numClasses + 5) + 3) / 2) / scaleBy)) / 2 =
      s (i * (numClasses + 5) + 1) ∧
    scaleBy * (((s (i * (numClasses + 5) + 1) +
        s (i * (numClasses + 5) + 3) / 2) / scaleBy) -
      ((s (i * (numClasses + 5) + 1) -
        s (i * (numClasses + 5) + 3) / 2) / scaleBy)) =
      s (i * (numClasses + 5) + 3) := by
  have hf : ∀ j, (boxRowYoloV5 s numClasses scaleBy j).length = 4 :=
    fun j => rfl
  have h0 := buildRows_getElem (boxRowYoloV5 s numClasses scaleBy) hf 0
    (by omega) numBoxes i hi
  have h1 := buildRows_getElem (boxRowYoloV5 s numClasses scaleBy) hf 1
    (by omega) numBoxes i hi
  have h2 := buildRows_getElem (boxRowYoloV5 s numClasses scaleBy) hf 2
    (by omega) numBoxes i hi
  have h3 := buildRows_getElem (boxRowYoloV5 s numClasses scaleBy) hf 3
    (by omega) numBoxes i hi
  refine ⟨?_, ?_, ?_, ?_, ?_, ?_, ?_, ?_⟩
  · simpa [getBoxesYoloV5, boxRowYoloV5] using h0
  · simpa [getBoxesYoloV5, boxRowYoloV5] using h1
  · simpa [getBoxesYoloV5, boxRowYoloV5] using h2
  · simpa [getBoxesYoloV5, boxRowYoloV5] using h3
  · field_simp
    ring
  · field_simp
    ring
  · field_simp
    ring
  · field_simp
    ring

/-- Witness for C7 at a concrete input. -/
theorem c7_box_decoder_left_inverse_witness :
    (getBoxesYoloV5 (fun _ => 0) 1 0 1)[0 * 4]? =
      some (((0 : ℚ) - 0 / 2) / 1) :=
  (c7_box_decoder_left_inverse (fun _ => 0) 1 0 1 0 (by norm_num)
    (by norm_num)).1

end CocoSsd
